import Mathlib

/-!
Verification of the UBC prerequisites-parsing core: the schema validator
(`utilities.ts`), the dependency extractor, the depth resolver and the graph
assembler (`export.ts`).  JavaScript untyped values are modelled by `JSValue`,
JS numbers by `ℚ`, JS `Map`s by insertion-ordered association lists.
-/

/-- Model of an untyped JavaScript value as received by the validator. -/
inductive JSValue where
  | vundefined
  | vnull
  | vbool (b : Bool)
  | vnum (q : ℚ)
  | vstr (s : String)
  | varr (elems : List JSValue)
  | vobj (fields : List (String × JSValue))

/-- Property lookup in an object's field list (first binding wins). -/
def getField : List (String × JSValue) → String → JSValue
  | [], _ => .vundefined
  | (k', v) :: rest, k => if k' = k then v else getField rest k

/-- `v[k]` — property access: `undefined` on every non-object. -/
def jsGet : JSValue → String → JSValue
  | .vobj fields, k => getField fields k
  | _, _ => .vundefined

/-- The JS test `req && typeof req === 'object'`: `null` is falsy, arrays and
objects pass, everything else is either falsy or not of type 'object'. -/
def isTruthyObject : JSValue → Bool
  | .varr _ => true
  | .vobj _ => true
  | _ => false

/-- JS truthiness of a value. -/
def truthy : JSValue → Bool
  | .vundefined => false
  | .vnull => false
  | .vbool b => b
  | .vnum q => decide (q ≠ 0)
  | .vstr s => decide (s ≠ "")
  | .varr _ => true
  | .vobj _ => true

/-- The JS test `v && typeof v === 'string'` for field `k`: a non-empty string. -/
def nonEmptyStringField (v : JSValue) (k : String) : Bool :=
  match jsGet v k with
  | .vstr s => decide (s ≠ "")
  | _ => false

/-- The `{ isValid, error? }` record returned by every validator. -/
structure VResult where
  isValid : Bool
  error : Option String
deriving Repr, DecidableEq

/-- String interpolation of a possibly missing error (JS renders `undefined`). -/
def errStr : VResult → String
  | ⟨_, some s⟩ => s
  | ⟨_, none⟩ => "undefined"

/-- `minGrade !== undefined && (typeof minGrade !== 'number' || < 0 || > 100)`
negated: the optional grade field is absent or a number in [0, 100]. -/
def optionalGradeOk : JSValue → Bool
  | .vundefined => true
  | .vnum g => decide (0 ≤ g) && decide (g ≤ 100)
  | _ => false

/-- Optional boolean field: absent or a boolean. -/
def optionalBoolOk : JSValue → Bool
  | .vundefined => true
  | .vbool _ => true
  | _ => false

/-- `validateRequirementCourse` from `utilities.ts`. -/
def validateRequirementCourse (req : JSValue) : VResult :=
  if ¬ nonEmptyStringField req "course" then
    ⟨false, some "Course requirement must have a course field"⟩
  else if ¬ optionalGradeOk (jsGet req "minGrade") then
    ⟨false, some "minGrade must be a number between 0 and 100"⟩
  else if ¬ optionalBoolOk (jsGet req "canBeTakenConcurrently") then
    ⟨false, some "canBeTakenConcurrently must be a boolean"⟩
  else if ¬ optionalBoolOk (jsGet req "mustBeTakenConcurrently") then
    ⟨false, some "mustBeTakenConcurrently must be a boolean"⟩
  else ⟨true, none⟩

/-- Is the value a string? (for `department` array elements). -/
def isStringValue : JSValue → Bool
  | .vstr _ => true
  | _ => false

/-- Is the value one of the level strings "100", "200", "300", "400"? -/
def isValidLevel : JSValue → Bool
  | .vstr s => s = "100" || s = "200" || s = "300" || s = "400"
  | _ => false

/-- Optional `department` field check, returning the error when invalid. -/
def validateDeptField (v : JSValue) : Option String :=
  match v with
  | .vundefined => none
  | .vstr _ => none
  | .varr ds =>
      if ds.all isStringValue then none
      else some "department array must contain only strings"
  | _ => some "department must be a string or array of strings"

/-- Optional `level` field check, returning the error when invalid. -/
def validateLevelField (v : JSValue) (arrMsg : String) : Option String :=
  match v with
  | .vundefined => none
  | .vstr s =>
      if isValidLevel (.vstr s) then none
      else some "level must be one of: 100, 200, 300, 400"
  | .varr ls => if ls.all isValidLevel then none else some arrMsg
  | _ => some "level must be a string or array of strings"

/-- The JS test `v && typeof v === 'number' && v > 0` for a required positive
numeric field (`credits` / `count`); `0` is falsy and also fails `> 0`. -/
def positiveNumberField (v : JSValue) : Bool :=
  match v with
  | .vnum q => decide (0 < q)
  | _ => false

/-- `validateRequirementCreditCount` from `utilities.ts`. -/
def validateRequirementCreditCount (req : JSValue) : VResult :=
  if ¬ positiveNumberField (jsGet req "credits") then
    ⟨false, some "Credit count requirement must have a positive credits field"⟩
  else
    match validateDeptField (jsGet req "department") with
    | some e => ⟨false, some e⟩
    | none =>
      match validateLevelField (jsGet req "level")
          "level array must contain only valid levels: 100, 200, 300, 400" with
      | some e => ⟨false, some e⟩
      | none =>
        if ¬ optionalGradeOk (jsGet req "minGrade") then
          ⟨false, some "minGrade must be a number between 0 and 100"⟩
        else ⟨true, none⟩

/-- `validateRequirementCourseCount` from `utilities.ts`. -/
def validateRequirementCourseCount (req : JSValue) : VResult :=
  if ¬ positiveNumberField (jsGet req "count") then
    ⟨false, some "Course count requirement must have a positive count field"⟩
  else
    match validateDeptField (jsGet req "department") with
    | some e => ⟨false, some e⟩
    | none =>
      match validateLevelField (jsGet req "level")
          "level array must contain only valid levels: 100, 200, 300, 400" with
      | some e => ⟨false, some e⟩
      | none =>
        if ¬ optionalGradeOk (jsGet req "minGrade") then
          ⟨false, some "minGrade must be a number between 0 and 100"⟩
        else ⟨true, none⟩

/-- `validateRequirementStanding` from `utilities.ts`. -/
def validateRequirementStanding (req : JSValue) : VResult :=
  match jsGet req "standing" with
  | .vstr s =>
      if s = "1st" || s = "2nd" || s = "3rd" || s = "4th" || s = "graduate" then
        ⟨true, none⟩
      else ⟨false, some "Standing requirement must have a valid standing field"⟩
  | _ => ⟨false, some "Standing requirement must have a valid standing field"⟩

/-- `validateRequirementProgram` from `utilities.ts`. -/
def validateRequirementProgram (req : JSValue) : VResult :=
  if nonEmptyStringField req "program" then ⟨true, none⟩
  else ⟨false, some "Program requirement must have a program field"⟩

/-- `validateRequirementPermission` from `utilities.ts`. -/
def validateRequirementPermission (req : JSValue) : VResult :=
  if nonEmptyStringField req "note" then ⟨true, none⟩
  else ⟨false, some "Permission requirement must have a note field"⟩

/-- `validateRequirementOther` from `utilities.ts`. -/
def validateRequirementOther (req : JSValue) : VResult :=
  if nonEmptyStringField req "note" then ⟨true, none⟩
  else ⟨false, some "Other requirement must have a note field"⟩

/-- `logic` field check of a group: literally one of the three enum strings
(`includes` uses strict equality; a falsy or non-string value never matches). -/
def groupLogicOk : JSValue → Bool
  | .vstr l => l = "ALL_OF" || l = "ONE_OF" || l = "TWO_OF"
  | _ => false

theorem sizeOf_getField (fields : List (String × JSValue)) (k : String) :
    getField fields k = .vundefined ∨ sizeOf (getField fields k) < sizeOf fields := by
  induction fields with
  | nil => left; rfl
  | cons p rest ih =>
    obtain ⟨k', v⟩ := p
    by_cases h : k' = k
    · right; simp [getField, h]; omega
    · rcases ih with h' | h'
      · left; simp [getField, h, h']
      · right; simp [getField, h]; omega

theorem sizeOf_jsGet (v : JSValue) (k : String) :
    jsGet v k = .vundefined ∨ sizeOf (jsGet v k) < sizeOf v := by
  cases v with
  | vobj fields =>
    rcases sizeOf_getField fields k with h | h
    · left; simpa [jsGet] using h
    · right; simp [jsGet]; omega
  | _ => left; rfl

mutual

/-- `validateRequirements` from `utilities.ts`: dispatcher keyed on `type`. -/
def validateRequirements (req : JSValue) : VResult :=
  if ¬ isTruthyObject req then ⟨false, some "Requirement must be an object"⟩
  else
    match jsGet req "type" with
    | .vstr t =>
      if t = "" then ⟨false, some "Requirement must have a valid type field"⟩
      else if t = "group" then validateRequirementGroup req
      else if t = "course" then validateRequirementCourse req
      else if t = "credit_count" then validateRequirementCreditCount req
      else if t = "course_count" then validateRequirementCourseCount req
      else if t = "standing" then validateRequirementStanding req
      else if t = "program" then validateRequirementProgram req
      else if t = "permission" then validateRequirementPermission req
      else if t = "other" then validateRequirementOther req
      else ⟨false, some ("Unknown requirement type: " ++ t)⟩
    | _ => ⟨false, some "Requirement must have a valid type field"⟩
termination_by (sizeOf req, 1)

/-- `validateRequirementGroup` from `utilities.ts`. -/
def validateRequirementGroup (req : JSValue) : VResult :=
  if ¬ groupLogicOk (jsGet req "logic") then
    ⟨false, some "Group must have logic field with value ALL_OF, ONE_OF, or TWO_OF"⟩
  else
    match h : jsGet req "children" with
    | .varr xs =>
      if xs.length = 0 then ⟨false, some "Group must have at least one child"⟩
      else validateChildren xs 0
    | _ => ⟨false, some "Group must have children array"⟩
termination_by (sizeOf req, 0)
decreasing_by
  have hs := sizeOf_jsGet req "children"
  rw [h] at hs
  rcases hs with h' | h'
  · exact absurd h' (by simp)
  · simp at h' ⊢
    omega

/-- The child loop of `validateRequirementGroup`: fail fast at the first
failing child, reporting its index and reason. -/
def validateChildren (xs : List JSValue) (i : Nat) : VResult :=
  match xs with
  | [] => ⟨true, none⟩
  | c :: rest =>
    let r := validateRequirements c
    if r.isValid then validateChildren rest (i + 1)
    else ⟨false, some ("Invalid child at index " ++ toString i ++ ": " ++ errStr r)⟩
termination_by (sizeOf xs, 0)
decreasing_by
  · simp; omega
  · simp; omega

end

/-- One optional requirement field of the top-level record: if truthy it must
validate, the failure message being put behind the given heading; otherwise
continue with `k`. -/
def checkOptionalReq (v : JSValue) (msgHead : String) (k : VResult) : VResult :=
  if truthy v then
    let r := validateRequirements v
    if r.isValid then k else ⟨false, some (msgHead ++ errStr r)⟩
  else k

/-- `validateParsedRequirements` from `utilities.ts`: the top-level entry.
The JS `try`/`catch` wrapper is dead in this model — the body is total. -/
def validateParsedRequirements (data : JSValue) : VResult :=
  if ¬ isTruthyObject data then ⟨false, some "Data must be an object"⟩
  else if ¬ nonEmptyStringField data "department" then
    ⟨false, some "Missing or invalid department field"⟩
  else if ¬ nonEmptyStringField data "code" then
    ⟨false, some "Missing or invalid code field"⟩
  else
    checkOptionalReq (jsGet data "prerequisites") "Invalid prerequisites: "
      (checkOptionalReq (jsGet data "corequisites") "Invalid corequisites: "
        (checkOptionalReq (jsGet data "recommendedPrerequisites")
            "Invalid recommended prerequisites: "
          (checkOptionalReq (jsGet data "recommendedCorequisites")
              "Invalid recommended corequisites: "
            ⟨true, none⟩)))

/-- `group` logic enumeration from `types.ts`. -/
inductive GroupLogic where
  | ALL_OF
  | ONE_OF
  | TWO_OF
deriving Repr, DecidableEq

/-- A `department` / `level` field: a single string or an array of strings. -/
inductive StringOrList where
  | single (s : String)
  | many (xs : List String)

/-- The `Requirements` tagged union from `types.ts` (8 variants). -/
inductive Requirements where
  | group (logic : GroupLogic) (children : List Requirements)
  | course (course : String) (minGrade : Option ℚ)
      (canBeTakenConcurrently : Option Bool) (mustBeTakenConcurrently : Option Bool)
  | credit_count (credits : ℚ) (department : Option StringOrList)
      (level : Option StringOrList) (minGrade : Option ℚ)
  | course_count (count : ℚ) (department : Option StringOrList)
      (level : Option StringOrList) (minGrade : Option ℚ)
  | standing (standing : String)
  | program (program : String)
  | permission (note : String)
  | other (note : String)

/-- The JSON string of a `GroupLogic` value. -/
def logicString : GroupLogic → String
  | .ALL_OF => "ALL_OF"
  | .ONE_OF => "ONE_OF"
  | .TWO_OF => "TWO_OF"

/-- JSON encoding of a `department` / `level` field. -/
def encodeStringOrList : StringOrList → JSValue
  | .single s => .vstr s
  | .many xs => .varr (xs.map .vstr)

/-- JSON fields of an optional grade. -/
def gradeFields (k : String) : Option ℚ → List (String × JSValue)
  | some g => [(k, .vnum g)]
  | none => []

/-- JSON fields of an optional boolean. -/
def boolFields (k : String) : Option Bool → List (String × JSValue)
  | some b => [(k, .vbool b)]
  | none => []

/-- JSON fields of an optional string-or-list. -/
def strOrListFields (k : String) : Option StringOrList → List (String × JSValue)
  | some v => [(k, encodeStringOrList v)]
  | none => []

mutual

/-- Canonical JSON encoding of a typed `Requirements` tree, as the TS object
would be serialized (optional fields absent when not set). -/
def encodeReq : Requirements → JSValue
  | .group logic children =>
      .vobj [("type", .vstr "group"), ("logic", .vstr (logicString logic)),
             ("children", .varr (encodeReqList children))]
  | .course c mg cbt mbt =>
      .vobj ([("type", .vstr "course"), ("course", .vstr c)] ++ gradeFields "minGrade" mg
        ++ boolFields "canBeTakenConcurrently" cbt ++ boolFields "mustBeTakenConcurrently" mbt)
  | .credit_count cr d l mg =>
      .vobj ([("type", .vstr "credit_count"), ("credits", .vnum cr)]
        ++ strOrListFields "department" d ++ strOrListFields "level" l
        ++ gradeFields "minGrade" mg)
  | .course_count ct d l mg =>
      .vobj ([("type", .vstr "course_count"), ("count", .vnum ct)]
        ++ strOrListFields "department" d ++ strOrListFields "level" l
        ++ gradeFields "minGrade" mg)
  | .standing s => .vobj [("type", .vstr "standing"), ("standing", .vstr s)]
  | .program p => .vobj [("type", .vstr "program"), ("program", .vstr p)]
  | .permission n => .vobj [("type", .vstr "permission"), ("note", .vstr n)]
  | .other n => .vobj [("type", .vstr "other"), ("note", .vstr n)]

def encodeReqList : List Requirements → List JSValue
  | [] => []
  | c :: rest => encodeReq c :: encodeReqList rest

end

mutual

/-- `extractCourseRequirementsWithValues` from `export.ts`: walk a requirement
tree emitting `(course, value)` pairs, distributing the value by group logic. -/
def extractCourseRequirementsWithValues : Requirements → ℚ → List (String × ℚ)
  | .course c _ _ _, baseValue => [(c, baseValue)]
  | .group logic children, baseValue =>
      let childValue :=
        if logic = .ONE_OF then baseValue / (children.length : ℚ)
        else if logic = .TWO_OF then (baseValue * 2) / (children.length : ℚ)
        else baseValue
      extractReqList children childValue
  | _, _ => []

/-- The `for (const child of node.children)` accumulation of the extractor. -/
def extractReqList : List Requirements → ℚ → List (String × ℚ)
  | [], _ => []
  | c :: rest, v => extractCourseRequirementsWithValues c v ++ extractReqList rest v

end

mutual

/-- Modelled from the spec: "the multiset of `course` leaves in document
(depth-first, left-to-right) order" — the spec-side description that claim C3
compares against the extractor's output. -/
def specCourseLeaves : Requirements → List String
  | .course c _ _ _ => [c]
  | .group _ children => specCourseLeavesList children
  | _ => []

def specCourseLeavesList : List Requirements → List String
  | [] => []
  | c :: rest => specCourseLeaves c ++ specCourseLeavesList rest

end

/-- Association-list lookup with JS `Map.get` semantics. -/
def alGet {α : Type} : List (String × α) → String → Option α
  | [], _ => none
  | (k', v) :: rest, k => if k' = k then some v else alGet rest k

/-- Association-list update with JS `Map.set` semantics: an existing key keeps
its insertion position, a new key is appended. -/
def alSet {α : Type} : List (String × α) → String → α → List (String × α)
  | [], k, v => [(k, v)]
  | (k', v') :: rest, k, v =>
      if k' = k then (k, v) :: rest else (k', v') :: alSet rest k v

/-- `Math.min(...ds)` over a spread list (only ever applied to non-empty
lists; the `[]` value stands for the unreachable `Infinity`). -/
def mathMinList : List Nat → Nat
  | [] => 0
  | d :: rest => rest.foldl Nat.min d

/-- `Math.max(...ds)` over a spread list (only ever applied to non-empty
lists; the `[]` value stands for the unreachable `-Infinity`). -/
def mathMaxList : List Nat → Nat
  | [] => 0
  | d :: rest => rest.foldl Nat.max d

/-- Ascending insertion used to model `childDepths.sort((a, b) => a - b)`. -/
def insertAsc (x : Nat) : List Nat → List Nat
  | [] => [x]
  | y :: rest => if x ≤ y then x :: y :: rest else y :: insertAsc x rest

/-- Ascending sort of a list of naturals. -/
def sortAsc (l : List Nat) : List Nat := l.foldr insertAsc []

mutual

/-- `calculatePrerequisiteDepth` from `export.ts`: the per-node depth
combinator over the currently-known course-depth table. -/
def calculatePrerequisiteDepth : Requirements → List (String × Nat) → Nat
  | .course c _ _ _, courseDepths => (alGet courseDepths c).getD 0 + 1
  | .group logic children, courseDepths =>
      if children.length = 0 then 0
      else
        let childDepths :=
          (calcDepthList children courseDepths).filter (fun d => decide (0 < d))
        if childDepths.length = 0 then 0
        else if logic = .ONE_OF then mathMinList childDepths
        else if logic = .TWO_OF then
          let sorted := sortAsc childDepths
          if 2 ≤ sorted.length then sorted.getD 1 0 else sorted.getD 0 0
        else mathMaxList childDepths
  | _, _ => 0

/-- The `node.children.map(child => calculatePrerequisiteDepth ..)` step. -/
def calcDepthList : List Requirements → List (String × Nat) → List Nat
  | [], _ => []
  | c :: rest, t => calculatePrerequisiteDepth c t :: calcDepthList rest t

end

/-- `Node` from `export.ts`. -/
structure Node where
  id : String
  title : String
  dept : String
  size : Nat
  depth : Nat
deriving Repr, DecidableEq

/-- `Link` from `export.ts`. -/
structure Link where
  source : String
  target : String
  value : ℚ
deriving Repr, DecidableEq

/-- `CourseParsedRequirements` from `types.ts` (the fields the core reads). -/
structure CourseParsedRequirements where
  department : String
  code : String
  prerequisites : Option Requirements
  corequisites : Option Requirements
  recommendedPrerequisites : Option Requirements
  recommendedCorequisites : Option Requirements

/-- `CourseSaveFile` from `types.ts` (the fields the graph assembler reads). -/
structure CourseSaveFile where
  course : String
  status : String
  parsedRequirements : Option CourseParsedRequirements

/-- JS `Math.round`: round half toward positive infinity. -/
def jsRound (q : ℚ) : ℤ := ⌊q + 1 / 2⌋

/-- `Math.round(value * 100) / 100` from `export.ts`. -/
def round2 (q : ℚ) : ℚ := (jsRound (q * 100) : ℚ) / 100

/-- The filter to parsed courses at the top of `generateNodesAndLinks`. -/
def parsedCoursesOf (courses : List CourseSaveFile) : List CourseSaveFile :=
  courses.filter (fun c => c.status == "parsed" && c.parsedRequirements.isSome)

/-- Initialize all parsed courses with depth 0. -/
def initDepths (parsedCourses : List CourseSaveFile) : List (String × Nat) :=
  parsedCourses.foldl (fun t c => alSet t c.course 0) []

/-- The per-course depth recomputation inside the relaxation pass: the max of
the prerequisite and corequisite tree depths (0 for absent trees). -/
def courseMaxDepth (c : CourseSaveFile) (t : List (String × Nat)) : Nat :=
  match c.parsedRequirements with
  | none => 0
  | some req =>
      let d1 := match req.prerequisites with
        | some p => calculatePrerequisiteDepth p t
        | none => 0
      let d2 := match req.corequisites with
        | some q => calculatePrerequisiteDepth q t
        | none => 0
      Nat.max (Nat.max 0 d1) d2

/-- One course's step of a relaxation pass: grow its entry when the
recomputed depth exceeds the current one, tracking whether anything grew. -/
def depthPassStep (st : List (String × Nat) × Bool) (c : CourseSaveFile) :
    List (String × Nat) × Bool :=
  let maxDepth := courseMaxDepth c st.1
  let currentDepth := (alGet st.1 c.course).getD 0
  if currentDepth < maxDepth then (alSet st.1 c.course maxDepth, true) else st

/-- One full relaxation pass over every parsed course. -/
def depthPass (parsedCourses : List CourseSaveFile) (t : List (String × Nat)) :
    List (String × Nat) × Bool :=
  parsedCourses.foldl depthPassStep (t, false)

/-- The `while (changed && maxIterations > 0)` loop of `generateNodesAndLinks`:
repeat passes until a no-change pass or the iteration ceiling, then return the
table reached so far. -/
def depthLoop (parsedCourses : List CourseSaveFile) :
    Nat → List (String × Nat) → List (String × Nat)
  | 0, t => t
  | n + 1, t =>
      let r := depthPass parsedCourses t
      if r.2 then depthLoop parsedCourses n r.1 else r.1

/-- The resolved depth table: initialize to zero, relax for at most 10 passes. -/
def courseDepthsOf (courses : List CourseSaveFile) : List (String × Nat) :=
  depthLoop (parsedCoursesOf courses) 10 (initDepths (parsedCoursesOf courses))

/-- `prereqId.split(' ')[0] || 'UNKNOWN'`. -/
def splitDept (courseId : String) : String :=
  let d := (courseId.splitOn " ").headD ""
  if d = "" then "UNKNOWN" else d

/-- The edge upsert of `generateNodesAndLinks`: keep only the link with the
highest value if a duplicate key exists. -/
def registerLink (linkMap : List (String × Link)) (linkKey : String) (link : Link) :
    List (String × Link) :=
  match alGet linkMap linkKey with
  | none => alSet linkMap linkKey link
  | some existing =>
      if existing.value < link.value then alSet linkMap linkKey link else linkMap

/-- Lazy node creation: `if (!nodesMap.has(id)) nodesMap.set(id, {...})`. -/
def addNodeIfAbsent (nodesMap : List (String × Node)) (id dept : String)
    (depth : Nat) : List (String × Node) :=
  match alGet nodesMap id with
  | some _ => nodesMap
  | none => alSet nodesMap id ⟨id, id, dept, 0, depth⟩

/-- The single-direction prerequisite edge registration of
`generateNodesAndLinks` (key `prereqId->targetId`, value rounded to 2
decimals). -/
def addPrereqLink (linkMap : List (String × Link)) (prereqId targetId : String)
    (value : ℚ) : List (String × Link) :=
  let linkKey := prereqId ++ "->" ++ targetId
  let roundedValue := round2 value
  registerLink linkMap linkKey ⟨prereqId, targetId, roundedValue⟩

/-- The bidirectional corequisite edge registration of
`generateNodesAndLinks`: both `coreqId->targetId` and `targetId->coreqId`
with the same rounded value. -/
def addCoreqLinks (linkMap : List (String × Link)) (coreqId targetId : String)
    (value : ℚ) : List (String × Link) :=
  let linkKey1 := coreqId ++ "->" ++ targetId
  let linkKey2 := targetId ++ "->" ++ coreqId
  let roundedValue := round2 value
  registerLink (registerLink linkMap linkKey1 ⟨coreqId, targetId, roundedValue⟩)
    linkKey2 ⟨targetId, coreqId, roundedValue⟩

/-- Body of the prerequisite loop: lazily add the prerequisite node, then
register the single prerequisite→dependent edge. -/
def processPrereqEntry (courseDepths : List (String × Nat)) (targetId : String)
    (st : List (String × Node) × List (String × Link)) (entry : String × ℚ) :
    List (String × Node) × List (String × Link) :=
  let prereqId := entry.1
  let nodes := addNodeIfAbsent st.1 prereqId (splitDept prereqId)
    ((alGet courseDepths prereqId).getD 0)
  (nodes, addPrereqLink st.2 prereqId targetId entry.2)

/-- Body of the corequisite loop: lazily add the corequisite node, then
register both directions. -/
def processCoreqEntry (courseDepths : List (String × Nat)) (targetId : String)
    (st : List (String × Node) × List (String × Link)) (entry : String × ℚ) :
    List (String × Node) × List (String × Link) :=
  let coreqId := entry.1
  let nodes := addNodeIfAbsent st.1 coreqId (splitDept coreqId)
    ((alGet courseDepths coreqId).getD 0)
  (nodes, addCoreqLinks st.2 coreqId targetId entry.2)

/-- The per-course body of the second pass of `generateNodesAndLinks`. -/
def processCourse (courseDepths : List (String × Nat))
    (st : List (String × Node) × List (String × Link)) (c : CourseSaveFile) :
    List (String × Node) × List (String × Link) :=
  match c.parsedRequirements with
  | none => st
  | some req =>
      let targetId := c.course
      let st1 := (addNodeIfAbsent st.1 targetId req.department
        ((alGet courseDepths targetId).getD 0), st.2)
      let st2 := match req.prerequisites with
        | some p => (extractCourseRequirementsWithValues p 1).foldl
            (processPrereqEntry courseDepths targetId) st1
        | none => st1
      match req.corequisites with
      | some q => (extractCourseRequirementsWithValues q 1).foldl
          (processCoreqEntry courseDepths targetId) st2
      | none => st2

/-- `generateNodesAndLinks` from `export.ts`: depth resolution, node/link
assembly, in-degree sizes, and pruning of nodes without incident links. -/
def generateNodesAndLinks (courses : List CourseSaveFile) :
    List Node × List Link :=
  let parsedCourses := parsedCoursesOf courses
  let courseDepths := depthLoop parsedCourses 10 (initDepths parsedCourses)
  let built := parsedCourses.foldl (processCourse courseDepths) ([], [])
  let linkArray := built.2.map Prod.snd
  let incomingCounts := linkArray.foldl
    (fun m l => alSet m l.target ((alGet m l.target).getD 0 + 1)) []
  let nodes := built.1.map
    (fun p => { p.2 with size := (alGet incomingCounts p.2.id).getD 0 })
  let prunedNodes := nodes.filter
    (fun n => linkArray.any (fun l => l.source == n.id || l.target == n.id))
  (prunedNodes, linkArray)

/-- Demo input for the rounding behaviour: one parsed course whose
prerequisite is ONE_OF over three courses, giving extractor weight 1/3. -/
def c5Courses : List CourseSaveFile :=
  [⟨"B 1", "parsed", some ⟨"B", "1",
    some (.group .ONE_OF [.course "MATH 1" none none none,
      .course "MATH 2" none none none, .course "MATH 3" none none none]),
    none, none, none⟩⟩]

/-- Demo input for corequisite symmetry: one parsed course whose sole
corequisite is a single course. -/
def c6Courses : List CourseSaveFile :=
  [⟨"B 1", "parsed", some ⟨"B", "1", none,
    some (.course "A 1" none none none), none, none⟩⟩]

theorem extractReqList_flatMap (cs : List Requirements) (v : ℚ) :
    extractReqList cs v = cs.flatMap (fun c => extractCourseRequirementsWithValues c v) := by
  induction cs with
  | nil => rfl
  | cons c rest ih => simp [extractReqList, ih]

theorem calcDepthList_map (cs : List Requirements) (t : List (String × Nat)) :
    calcDepthList cs t = cs.map (fun c => calculatePrerequisiteDepth c t) := by
  induction cs with
  | nil => rfl
  | cons c rest ih => simp [calcDepthList, ih]

theorem alGet_alSet {α : Type} (m : List (String × α)) (k k' : String) (v : α) :
    alGet (alSet m k v) k' = if k = k' then some v else alGet m k' := by
  induction m with
  | nil => simp [alGet, alSet]
  | cons p rest ih =>
    obtain ⟨k0, v0⟩ := p
    by_cases h0 : k0 = k
    · subst h0
      by_cases h1 : k0 = k'
      · simp [alGet, alSet, h1]
      · simp [alGet, alSet, h1]
    · by_cases h1 : k0 = k'
      · subst h1
        have : ¬ k = k0 := fun hh => h0 hh.symm
        simp [alGet, alSet, h0, this]
      · simp [alGet, alSet, h0, h1, ih]

theorem mem_alSet {α : Type} (m : List (String × α)) (k : String) (v : α)
    (p : String × α) (hp : p ∈ alSet m k v) : p = (k, v) ∨ p ∈ m := by
  induction m with
  | nil => simpa [alSet] using hp
  | cons q rest ih =>
    obtain ⟨k0, v0⟩ := q
    by_cases h0 : k0 = k
    · simp [alSet, h0] at hp
      rcases hp with h | h
      · left; simp [h]
      · right; simp [h]
    · simp [alSet, h0] at hp
      rcases hp with h | h
      · right; simp [h]
      · rcases ih h with h' | h'
        · left; exact h'
        · right; simp [h']

theorem foldl_min_le_init : ∀ (l : List Nat) (a : Nat), l.foldl Nat.min a ≤ a := by
  intro l
  induction l with
  | nil => intro a; simp
  | cons x rest ih =>
    intro a
    calc rest.foldl Nat.min (Nat.min a x) ≤ Nat.min a x := ih _
    _ ≤ a := Nat.min_le_left _ _

theorem foldl_min_le_mem : ∀ (l : List Nat) (a x : Nat), x ∈ l → l.foldl Nat.min a ≤ x := by
  intro l
  induction l with
  | nil => intro a x hx; cases hx
  | cons y rest ih =>
    intro a x hx
    rcases List.mem_cons.mp hx with h | h
    · subst h
      calc rest.foldl Nat.min (Nat.min a x) ≤ Nat.min a x := foldl_min_le_init _ _
      _ ≤ x := Nat.min_le_right _ _
    · exact ih _ x h

theorem foldl_min_mem_or : ∀ (l : List Nat) (a : Nat),
    l.foldl Nat.min a = a ∨ l.foldl Nat.min a ∈ l := by
  intro l
  induction l with
  | nil => intro a; left; rfl
  | cons x rest ih =>
    intro a
    rcases ih (Nat.min a x) with h | h
    · rcases Nat.le_total a x with hax | hax
      · left; simp only [List.foldl_cons, h]; exact Nat.min_eq_left hax
      · right
        simp only [List.foldl_cons, h]
        simp [Nat.min_eq_right hax]
    · right; exact List.mem_cons_of_mem _ h

theorem foldl_max_init_le : ∀ (l : List Nat) (a : Nat), a ≤ l.foldl Nat.max a := by
  intro l
  induction l with
  | nil => intro a; simp
  | cons x rest ih =>
    intro a
    calc a ≤ Nat.max a x := Nat.le_max_left _ _
    _ ≤ rest.foldl Nat.max (Nat.max a x) := ih _

theorem foldl_max_mem_le : ∀ (l : List Nat) (a x : Nat), x ∈ l → x ≤ l.foldl Nat.max a := by
  intro l
  induction l with
  | nil => intro a x hx; cases hx
  | cons y rest ih =>
    intro a x hx
    rcases List.mem_cons.mp hx with h | h
    · subst h
      calc x ≤ Nat.max a x := Nat.le_max_right _ _
      _ ≤ rest.foldl Nat.max (Nat.max a x) := foldl_max_init_le _ _
    · exact ih _ x h

theorem foldl_max_mem_or : ∀ (l : List Nat) (a : Nat),
    l.foldl Nat.max a = a ∨ l.foldl Nat.max a ∈ l := by
  intro l
  induction l with
  | nil => intro a; left; rfl
  | cons x rest ih =>
    intro a
    rcases ih (Nat.max a x) with h | h
    · rcases Nat.le_total a x with hax | hax
      · right
        simp only [List.foldl_cons, h]
        simp [Nat.max_eq_right hax]
      · left; simp only [List.foldl_cons, h]; exact Nat.max_eq_left hax
    · right; exact List.mem_cons_of_mem _ h

theorem mathMinList_mem (l : List Nat) (hl : l ≠ []) : mathMinList l ∈ l := by
  cases l with
  | nil => exact absurd rfl hl
  | cons d rest =>
    rcases foldl_min_mem_or rest d with h | h
    · simp [mathMinList, h]
    · exact List.mem_cons_of_mem _ (by simpa [mathMinList] using h)

theorem mathMinList_le (l : List Nat) (x : Nat) (hx : x ∈ l) : mathMinList l ≤ x := by
  cases l with
  | nil => cases hx
  | cons d rest =>
    rcases List.mem_cons.mp hx with h | h
    · subst h; exact foldl_min_le_init _ _
    · exact foldl_min_le_mem _ _ _ h

theorem mathMaxList_mem (l : List Nat) (hl : l ≠ []) : mathMaxList l ∈ l := by
  cases l with
  | nil => exact absurd rfl hl
  | cons d rest =>
    rcases foldl_max_mem_or rest d with h | h
    · simp [mathMaxList, h]
    · exact List.mem_cons_of_mem _ (by simpa [mathMaxList] using h)

theorem mathMaxList_le (l : List Nat) (x : Nat) (hx : x ∈ l) : x ≤ mathMaxList l := by
  cases l with
  | nil => cases hx
  | cons d rest =>
    rcases List.mem_cons.mp hx with h | h
    · subst h; exact foldl_max_init_le _ _
    · exact foldl_max_mem_le _ _ _ h

theorem registerLink_fresh (m : List (String × Link)) (k : String) (l : Link)
    (h : alGet m k = none) : alGet (registerLink m k l) k = some l := by
  simp [registerLink, h, alGet_alSet]

theorem registerLink_other (m : List (String × Link)) (k : String) (l : Link)
    (k' : String) (h : k' ≠ k) : alGet (registerLink m k l) k' = alGet m k' := by
  unfold registerLink
  have hne : ¬ k = k' := fun hh => h hh.symm
  match halt : alGet m k with
  | none => simp [alGet_alSet, hne]
  | some existing =>
    by_cases hv : existing.value < l.value
    · simp [hv, alGet_alSet, hne]
    · simp [hv]

theorem jsRound_intCast (n : ℤ) : jsRound (n : ℚ) = n := by
  unfold jsRound
  rw [add_comm, Int.floor_add_int]
  norm_num

theorem round2_idem (q : ℚ) : round2 (round2 q) = round2 q := by
  unfold round2
  have h : ((jsRound (q * 100) : ℚ) / 100) * 100 = (jsRound (q * 100) : ℚ) := by
    field_simp
  rw [h, jsRound_intCast]

/-- Every value stored in the link map is a fixed point of 2-decimal rounding. -/
def RoundedMap (m : List (String × Link)) : Prop :=
  ∀ p ∈ m, round2 p.2.value = p.2.value

theorem registerLink_rounded (m : List (String × Link)) (k : String) (l : Link)
    (hl : round2 l.value = l.value) (hm : RoundedMap m) :
    RoundedMap (registerLink m k l) := by
  unfold registerLink
  match halt : alGet m k with
  | none =>
    intro p hp
    rcases mem_alSet _ _ _ _ hp with h | h
    · rw [h]; exact hl
    · exact hm p h
  | some existing =>
    by_cases hv : existing.value < l.value
    · simp only [hv, if_true]
      intro p hp
      rcases mem_alSet _ _ _ _ hp with h | h
      · rw [h]; exact hl
      · exact hm p h
    · simp only [hv, if_false]
      exact hm

theorem addPrereqLink_rounded (m : List (String × Link)) (p t : String) (v : ℚ)
    (hm : RoundedMap m) : RoundedMap (addPrereqLink m p t v) :=
  registerLink_rounded _ _ _ (round2_idem v) hm

theorem addCoreqLinks_rounded (m : List (String × Link)) (c t : String) (v : ℚ)
    (hm : RoundedMap m) : RoundedMap (addCoreqLinks m c t v) :=
  registerLink_rounded _ _ _ (round2_idem v)
    (registerLink_rounded _ _ _ (round2_idem v) hm)

theorem foldl_preserve {α β : Type} (P : α → Prop) (f : α → β → α)
    (hf : ∀ a b, P a → P (f a b)) :
    ∀ (l : List β) (a : α), P a → P (l.foldl f a) := by
  intro l
  induction l with
  | nil => intro a ha; exact ha
  | cons b rest ih => intro a ha; exact ih _ (hf a b ha)

theorem processPrereqEntry_rounded (cd : List (String × Nat)) (tid : String)
    (st : List (String × Node) × List (String × Link)) (e : String × ℚ)
    (hm : RoundedMap st.2) : RoundedMap (processPrereqEntry cd tid st e).2 :=
  addPrereqLink_rounded _ _ _ _ hm

theorem processCoreqEntry_rounded (cd : List (String × Nat)) (tid : String)
    (st : List (String × Node) × List (String × Link)) (e : String × ℚ)
    (hm : RoundedMap st.2) : RoundedMap (processCoreqEntry cd tid st e).2 :=
  addCoreqLinks_rounded _ _ _ _ hm

theorem processCourse_rounded (cd : List (String × Nat))
    (st : List (String × Node) × List (String × Link)) (c : CourseSaveFile)
    (hm : RoundedMap st.2) : RoundedMap (processCourse cd st c).2 := by
  rcases c with ⟨cc, cstatus, pr⟩
  cases pr with
  | none => simpa [processCourse] using hm
  | some req =>
    have base : RoundedMap ((addNodeIfAbsent st.1 cc req.department
        ((alGet cd cc).getD 0), st.2) :
        List (String × Node) × List (String × Link)).2 := hm
    cases hp : req.prerequisites with
    | none =>
      cases hq : req.corequisites with
      | none => simpa [processCourse, hp, hq] using hm
      | some qq =>
        simp only [processCourse, hp, hq]
        exact foldl_preserve
          (fun (s : List (String × Node) × List (String × Link)) => RoundedMap s.2)
          _ (fun a b ha => processCoreqEntry_rounded cd cc a b ha) _ _ base
    | some pp =>
      have afterP : RoundedMap ((extractCourseRequirementsWithValues pp 1).foldl
          (processPrereqEntry cd cc)
          (addNodeIfAbsent st.1 cc req.department ((alGet cd cc).getD 0), st.2)).2 :=
        foldl_preserve
          (fun (s : List (String × Node) × List (String × Link)) => RoundedMap s.2)
          _ (fun a b ha => processPrereqEntry_rounded cd cc a b ha) _ _ base
      cases hq : req.corequisites with
      | none => simpa [processCourse, hp, hq] using afterP
      | some qq =>
        simp only [processCourse, hp, hq]
        exact foldl_preserve
          (fun (s : List (String × Node) × List (String × Link)) => RoundedMap s.2)
          _ (fun a b ha => processCoreqEntry_rounded cd cc a b ha) _ _ afterP

theorem generateNodesAndLinks_links_rounded (courses : List CourseSaveFile) :
    ∀ l ∈ (generateNodesAndLinks courses).2, round2 l.value = l.value := by
  intro l hl
  unfold generateNodesAndLinks at hl
  simp only at hl
  have hbuilt : RoundedMap ((parsedCoursesOf courses).foldl
      (processCourse (depthLoop (parsedCoursesOf courses) 10
        (initDepths (parsedCoursesOf courses)))) ([], [])).2 := by
    refine foldl_preserve
      (fun (s : List (String × Node) × List (String × Link)) => RoundedMap s.2)
      _ ?_ _ _ ?_
    · intro a b ha; exact processCourse_rounded _ a b ha
    · intro p hp; cases hp
  rcases List.mem_map.mp hl with ⟨p, hp, hpl⟩
  rw [← hpl]
  exact hbuilt p hp

theorem extract_spec_aux : ∀ n : Nat,
    (∀ t : Requirements, sizeOf t ≤ n → ∀ w : ℚ,
      (extractCourseRequirementsWithValues t w).map Prod.fst = specCourseLeaves t) ∧
    (∀ cs : List Requirements, sizeOf cs ≤ n → ∀ w : ℚ,
      (extractReqList cs w).map Prod.fst = specCourseLeavesList cs) := by
  intro n
  induction n with
  | zero =>
    constructor
    · intro t ht w
      exfalso
      cases t <;> simp at ht <;> omega
    · intro cs hcs w
      exfalso
      cases cs <;> simp at hcs <;> omega
  | succ n ih =>
    constructor
    · intro t ht w
      cases t with
      | group logic cs =>
        have hcs : sizeOf cs ≤ n := by simp at ht; omega
        simp only [extractCourseRequirementsWithValues, specCourseLeaves]
        exact ih.2 cs hcs _
      | course c mg a b => simp [extractCourseRequirementsWithValues, specCourseLeaves]
      | credit_count cr d l g =>
        simp [extractCourseRequirementsWithValues, specCourseLeaves]
      | course_count ct d l g =>
        simp [extractCourseRequirementsWithValues, specCourseLeaves]
      | standing s => simp [extractCourseRequirementsWithValues, specCourseLeaves]
      | program p => simp [extractCourseRequirementsWithValues, specCourseLeaves]
      | permission nn => simp [extractCourseRequirementsWithValues, specCourseLeaves]
      | other nn => simp [extractCourseRequirementsWithValues, specCourseLeaves]
    · intro cs hcs w
      cases cs with
      | nil => simp [extractReqList, specCourseLeavesList]
      | cons c rest =>
        have h1 : sizeOf c ≤ n := by simp at hcs; omega
        have h2 : sizeOf rest ≤ n := by simp at hcs; omega
        simp [extractReqList, specCourseLeavesList, ih.1 c h1, ih.2 rest h2]

theorem extract_map_fst (t : Requirements) (w : ℚ) :
    (extractCourseRequirementsWithValues t w).map Prod.fst = specCourseLeaves t :=
  (extract_spec_aux (sizeOf t)).1 t le_rfl w

theorem initDepths_aux :
    ∀ (pc : List CourseSaveFile) (acc : List (String × Nat)) (c : String),
      (alGet acc c = some 0 ∨ c ∈ pc.map CourseSaveFile.course) →
      alGet (pc.foldl (fun t cc => alSet t cc.course 0) acc) c = some 0 := by
  intro pc
  induction pc with
  | nil =>
    intro acc c h
    rcases h with h | h
    · exact h
    · simp at h
  | cons p rest ih =>
    intro acc c h
    simp only [List.foldl_cons]
    apply ih
    by_cases hc : p.course = c
    · left; rw [alGet_alSet]; simp [hc]
    · rcases h with h | h
      · left; rw [alGet_alSet]; simp [hc]; exact h
      · simp only [List.map_cons, List.mem_cons] at h
        rcases h with h | h
        · exact absurd h.symm hc
        · right; simpa using h

/-- The result-shape invariant of claim C10: `isValid` is a boolean and a
`false` result always carries an error message. -/
def VOk (r : VResult) : Prop :=
  r.isValid = true ∨ (r.isValid = false ∧ r.error.isSome = true)

theorem checkOptionalReq_ok (v : JSValue) (m : String) (k : VResult) (hk : VOk k) :
    VOk (checkOptionalReq v m k) := by
  unfold checkOptionalReq
  by_cases ht : truthy v = true
  · by_cases hv : (validateRequirements v).isValid = true
    · simpa [ht, hv] using hk
    · right; simp [ht, hv, VOk]
  · simpa [ht] using hk

theorem validateChildren_fail_fast (xs : List JSValue) (c : JSValue)
    (ys : List JSValue)
    (hxs : ∀ x ∈ xs, (validateRequirements x).isValid = true)
    (hc : (validateRequirements c).isValid = false) :
    ∀ i : Nat, validateChildren (xs ++ c :: ys) i =
      ⟨false, some ("Invalid child at index " ++ toString (i + xs.length) ++ ": "
        ++ errStr (validateRequirements c))⟩ := by
  induction xs with
  | nil =>
    intro i
    simp [validateChildren, hc]
  | cons x rest ih =>
    intro i
    have hx : (validateRequirements x).isValid = true := hxs x (by simp)
    have hrest : ∀ y ∈ rest, (validateRequirements y).isValid = true :=
      fun y hy => hxs y (by simp [hy])
    have harith : i + 1 + rest.length = i + (rest.length + 1) := by omega
    simp only [List.cons_append, validateChildren, hx, if_true]
    rw [ih hrest (i + 1), harith]
    simp

/-- The `childDepths` local of `calculatePrerequisiteDepth`: the children's
depths with zero values dropped. -/
def nonzeroChildDepths (cs : List Requirements) (t : List (String × Nat)) : List Nat :=
  (cs.map (fun c => calculatePrerequisiteDepth c t)).filter (fun d => decide (0 < d))

theorem calc_group_eq (logic : GroupLogic) (cs : List Requirements)
    (t : List (String × Nat)) :
    calculatePrerequisiteDepth (.group logic cs) t =
      if cs.length = 0 then 0
      else if (nonzeroChildDepths cs t).length = 0 then 0
      else if logic = .ONE_OF then mathMinList (nonzeroChildDepths cs t)
      else if logic = .TWO_OF then
        (if 2 ≤ (sortAsc (nonzeroChildDepths cs t)).length
          then (sortAsc (nonzeroChildDepths cs t)).getD 1 0
          else (sortAsc (nonzeroChildDepths cs t)).getD 0 0)
      else mathMaxList (nonzeroChildDepths cs t) := by
  simp only [calculatePrerequisiteDepth, calcDepthList_map, nonzeroChildDepths]

theorem sortAsc_pair (a b : Nat) : sortAsc [a, b] = if a ≤ b then [a, b] else [b, a] := by
  by_cases h : a ≤ b <;> simp [sortAsc, insertAsc, h]

theorem nonzeroChildDepths_ne_nil_length (cs : List Requirements)
    (t : List (String × Nat)) (h : nonzeroChildDepths cs t ≠ []) : cs.length ≠ 0 := by
  intro hlen
  apply h
  have : cs = [] := List.length_eq_zero.mp hlen
  simp [nonzeroChildDepths, this]

/-- C1: for every requirement tree and positive base weight, the dependency
extractor distributes weight by group logic — ALL_OF passes the full current
weight to every child, ONE_OF divides it by the child count, TWO_OF doubles
it and divides by the child count; in particular ALL_OF[A, ONE_OF[B, C]] at
base weight 1 yields A at 1 and B, C at 0.5 each. -/
theorem C1_weight_distribution (w : ℚ) (hw : 0 < w) :
    (∀ cs : List Requirements,
      extractCourseRequirementsWithValues (.group .ALL_OF cs) w
        = cs.flatMap (fun c => extractCourseRequirementsWithValues c w)) ∧
    (∀ cs : List Requirements,
      extractCourseRequirementsWithValues (.group .ONE_OF cs) w
        = cs.flatMap (fun c =>
            extractCourseRequirementsWithValues c (w / (cs.length : ℚ)))) ∧
    (∀ cs : List Requirements,
      extractCourseRequirementsWithValues (.group .TWO_OF cs) w
        = cs.flatMap (fun c =>
            extractCourseRequirementsWithValues c ((w * 2) / (cs.length : ℚ)))) ∧
    extractCourseRequirementsWithValues
      (.group .ALL_OF [.course "A" none none none,
        .group .ONE_OF [.course "B" none none none, .course "C" none none none]]) 1
      = [("A", 1), ("B", 1/2), ("C", 1/2)] := by
  refine ⟨?_, ?_, ?_, rfl⟩ <;> intro cs <;>
    simp [extractCourseRequirementsWithValues, extractReqList_flatMap]

theorem C1_weight_distribution_witness :
    (0 : ℚ) < 1 ∧
    extractCourseRequirementsWithValues
      (.group .ALL_OF [.course "A" none none none,
        .group .ONE_OF [.course "B" none none none, .course "C" none none none]]) 1
      = [("A", 1), ("B", 1/2), ("C", 1/2)] :=
  ⟨by norm_num, (C1_weight_distribution 1 (by norm_num)).2.2.2⟩

theorem insertAsc_eq_orderedInsert (x : Nat) (l : List Nat) :
    insertAsc x l = List.orderedInsert (· ≤ ·) x l := by
  induction l with
  | nil => rfl
  | cons y rest ih => by_cases h : x ≤ y <;> simp [insertAsc, List.orderedInsert, h, ih]

theorem sortAsc_eq_insertionSort (l : List Nat) :
    sortAsc l = List.insertionSort (· ≤ ·) l := by
  induction l with
  | nil => rfl
  | cons x rest ih =>
    show insertAsc x (List.foldr insertAsc [] rest)
      = List.orderedInsert (· ≤ ·) x (List.insertionSort (· ≤ ·) rest)
    rw [insertAsc_eq_orderedInsert]
    exact congrArg _ ih

theorem sortAsc_sorted (l : List Nat) : List.Sorted (· ≤ ·) (sortAsc l) := by
  rw [sortAsc_eq_insertionSort]
  exact List.sorted_insertionSort _ l

theorem sortAsc_perm (l : List Nat) : List.Perm (sortAsc l) l := by
  rw [sortAsc_eq_insertionSort]
  exact List.perm_insertionSort _ l

/-- C2: the per-node depth combinator — a `course` node yields 1 plus the
currently-known depth of the course (0 if unknown); a `group` node drops the
zero child depths and yields 0 when none are left, otherwise ONE_OF takes the
minimum, TWO_OF the second-smallest (the single candidate when only one is
non-zero), ALL_OF the maximum; over children of known depths 1 and 2, ALL_OF
yields 3, ONE_OF yields 2, TWO_OF yields 3. -/
theorem C2_depth_combinator :
    (∀ (c : String) (mg : Option ℚ) (a b : Option Bool) (t : List (String × Nat)),
      calculatePrerequisiteDepth (.course c mg a b) t = (alGet t c).getD 0 + 1) ∧
    (∀ (logic : GroupLogic) (cs : List Requirements) (t : List (String × Nat)),
      nonzeroChildDepths cs t = [] →
      calculatePrerequisiteDepth (.group logic cs) t = 0) ∧
    (∀ (cs : List Requirements) (t : List (String × Nat)),
      nonzeroChildDepths cs t ≠ [] →
      calculatePrerequisiteDepth (.group .ONE_OF cs) t ∈ nonzeroChildDepths cs t ∧
      ∀ d ∈ nonzeroChildDepths cs t,
        calculatePrerequisiteDepth (.group .ONE_OF cs) t ≤ d) ∧
    (∀ (cs : List Requirements) (t : List (String × Nat)) (a b : Nat),
      nonzeroChildDepths cs t = [a, b] →
      calculatePrerequisiteDepth (.group .TWO_OF cs) t = Nat.max a b) ∧
    (∀ (cs : List Requirements) (t : List (String × Nat)) (a : Nat),
      nonzeroChildDepths cs t = [a] →
      calculatePrerequisiteDepth (.group .TWO_OF cs) t = a) ∧
    (∀ (cs : List Requirements) (t : List (String × Nat)),
      List.Sorted (· ≤ ·) (sortAsc (nonzeroChildDepths cs t)) ∧
      List.Perm (sortAsc (nonzeroChildDepths cs t)) (nonzeroChildDepths cs t)) ∧
    (∀ (cs : List Requirements) (t : List (String × Nat)),
      2 ≤ (nonzeroChildDepths cs t).length →
      calculatePrerequisiteDepth (.group .TWO_OF cs) t
        = (sortAsc (nonzeroChildDepths cs t)).getD 1 0) ∧
    (∀ (cs : List Requirements) (t : List (String × Nat)),
      nonzeroChildDepths cs t ≠ [] →
      calculatePrerequisiteDepth (.group .ALL_OF cs) t ∈ nonzeroChildDepths cs t ∧
      ∀ d ∈ nonzeroChildDepths cs t,
        d ≤ calculatePrerequisiteDepth (.group .ALL_OF cs) t) ∧
    (calculatePrerequisiteDepth
        (.group .ALL_OF [.course "Y" none none none, .course "Z" none none none])
        [("Y", 1), ("Z", 2)] = 3 ∧
      calculatePrerequisiteDepth
        (.group .ONE_OF [.course "Y" none none none, .course "Z" none none none])
        [("Y", 1), ("Z", 2)] = 2 ∧
      calculatePrerequisiteDepth
        (.group .TWO_OF [.course "Y" none none none, .course "Z" none none none])
        [("Y", 1), ("Z", 2)] = 3) := by
  refine ⟨fun c mg a b t => rfl, ?_, ?_, ?_, ?_,
    fun cs t => ⟨sortAsc_sorted _, sortAsc_perm _⟩, ?_, ?_, rfl, rfl, rfl⟩
  · intro logic cs t h
    rw [calc_group_eq]
    by_cases hcs : cs.length = 0 <;> simp [hcs, h]
  · intro cs t h
    have hcs : cs.length ≠ 0 := nonzeroChildDepths_ne_nil_length cs t h
    have hlen : (nonzeroChildDepths cs t).length ≠ 0 := by
      simpa [List.length_eq_zero] using h
    rw [calc_group_eq]
    simp only [hcs, hlen, if_false, reduceIte]
    exact ⟨mathMinList_mem _ h, fun d hd => mathMinList_le _ d hd⟩
  · intro cs t a b h
    have hcs : cs.length ≠ 0 := nonzeroChildDepths_ne_nil_length cs t (by simp [h])
    rw [calc_group_eq, h]
    simp only [hcs, if_false, reduceIte, sortAsc_pair]
    by_cases hab : a ≤ b
    · simp [hab, Nat.max_eq_right hab]
    · have hba : b ≤ a := Nat.le_of_lt (Nat.lt_of_not_le hab)
      simp [hab, Nat.max_eq_left hba]
  · intro cs t a h
    have hcs : cs.length ≠ 0 := nonzeroChildDepths_ne_nil_length cs t (by simp [h])
    rw [calc_group_eq, h]
    simp [hcs, sortAsc, insertAsc]
  · intro cs t h2
    have hne : nonzeroChildDepths cs t ≠ [] := by
      intro hh; rw [hh] at h2; simp at h2
    have hcs : cs.length ≠ 0 := nonzeroChildDepths_ne_nil_length cs t hne
    have hlen : (nonzeroChildDepths cs t).length ≠ 0 := by
      simpa [List.length_eq_zero] using hne
    have hsort : 2 ≤ (sortAsc (nonzeroChildDepths cs t)).length := by
      rw [(sortAsc_perm (nonzeroChildDepths cs t)).length_eq]
      exact h2
    rw [calc_group_eq]
    simp [hcs, hlen, hsort]
  · intro cs t h
    have hcs : cs.length ≠ 0 := nonzeroChildDepths_ne_nil_length cs t h
    have hlen : (nonzeroChildDepths cs t).length ≠ 0 := by
      simpa [List.length_eq_zero] using h
    rw [calc_group_eq]
    simp only [hcs, hlen, if_false, reduceIte]
    exact ⟨mathMaxList_mem _ h, fun d hd => mathMaxList_le _ d hd⟩

theorem C2_depth_combinator_witness :
    calculatePrerequisiteDepth (.group .ALL_OF []) [] = 0 ∧
    calculatePrerequisiteDepth (.group .TWO_OF [.course "Y" none none none])
      [("Y", 1)] = 2 := by
  constructor
  · exact C2_depth_combinator.2.1 .ALL_OF [] [] rfl
  · exact C2_depth_combinator.2.2.2.2.1 [.course "Y" none none none] [("Y", 1)] 2 rfl

/-- C3: for every requirement tree accepted by the validator (in its canonical
JSON encoding) and every base weight, the extractor emits exactly the `course`
leaves of the tree in document (depth-first, left-to-right) order, one pair
per leaf; every non-course, non-group variant emits nothing. -/
theorem C3_extractor_course_leaves :
    (∀ (t : Requirements) (w : ℚ),
      (validateRequirements (encodeReq t)).isValid = true →
      (extractCourseRequirementsWithValues t w).map Prod.fst = specCourseLeaves t) ∧
    (∀ (w cr : ℚ) (d l : Option StringOrList) (g : Option ℚ),
      extractCourseRequirementsWithValues (.credit_count cr d l g) w = []) ∧
    (∀ (w ct : ℚ) (d l : Option StringOrList) (g : Option ℚ),
      extractCourseRequirementsWithValues (.course_count ct d l g) w = []) ∧
    (∀ (w : ℚ) (s : String),
      extractCourseRequirementsWithValues (.standing s) w = []) ∧
    (∀ (w : ℚ) (p : String),
      extractCourseRequirementsWithValues (.program p) w = []) ∧
    (∀ (w : ℚ) (s : String),
      extractCourseRequirementsWithValues (.permission s) w = []) ∧
    (∀ (w : ℚ) (s : String),
      extractCourseRequirementsWithValues (.other s) w = []) := by
  exact ⟨fun t w _ => extract_map_fst t w, fun _ _ _ _ _ => rfl, fun _ _ _ _ _ => rfl,
    fun _ _ => rfl, fun _ _ => rfl, fun _ _ => rfl, fun _ _ => rfl⟩

theorem C3_extractor_course_leaves_witness :
    (validateRequirements (encodeReq
      (.group .ALL_OF [.course "A" none none none,
        .group .ONE_OF [.course "B" none none none,
          .course "C" none none none]]))).isValid = true ∧
    (extractCourseRequirementsWithValues
        (.group .ALL_OF [.course "A" none none none,
          .group .ONE_OF [.course "B" none none none,
            .course "C" none none none]]) (1/2)).map Prod.fst
      = specCourseLeaves
          (.group .ALL_OF [.course "A" none none none,
            .group .ONE_OF [.course "B" none none none,
              .course "C" none none none]]) := by
  have hv : (validateRequirements (encodeReq
      (.group .ALL_OF [.course "A" none none none,
        .group .ONE_OF [.course "B" none none none,
          .course "C" none none none]]))).isValid = true := by
    simp [validateRequirements, validateRequirementGroup, validateChildren,
      validateRequirementCourse, encodeReq, encodeReqList, logicString, jsGet,
      getField, isTruthyObject, nonEmptyStringField, optionalGradeOk,
      optionalBoolOk, groupLogicOk, gradeFields, boolFields, errStr]
  exact ⟨hv, C3_extractor_course_leaves.1 _ (1/2) hv⟩

/-- C4: on a shared ordered (source, target) key the surviving edge value is
the larger of the two registered values regardless of registration order, and
an equal-value second registration keeps the first-registered edge. -/
theorem C4_edge_dedup_max (m : List (String × Link)) (k : String) (l1 l2 : Link)
    (h : alGet m k = none) :
    alGet (registerLink (registerLink m k l1) k l2) k
        = some (if l1.value < l2.value then l2 else l1) ∧
    (alGet (registerLink (registerLink m k l1) k l2) k).map Link.value
        = some (max l1.value l2.value) ∧
    (l1.value = l2.value →
      alGet (registerLink (registerLink m k l1) k l2) k = some l1) := by
  have h1 : alGet (registerLink m k l1) k = some l1 := registerLink_fresh m k l1 h
  have hmain : alGet (registerLink (registerLink m k l1) k l2) k
      = some (if l1.value < l2.value then l2 else l1) := by
    conv_lhs => rw [registerLink, h1]
    by_cases hv : l1.value < l2.value
    · simp [hv, alGet_alSet]
    · simp [hv, h1]
  refine ⟨hmain, ?_, ?_⟩
  · rw [hmain]
    by_cases hv : l1.value < l2.value
    · simp [hv, max_eq_right (le_of_lt hv)]
    · simp [hv, max_eq_left (le_of_not_lt hv)]
  · intro heq
    rw [hmain]
    simp [heq]

theorem C4_edge_dedup_max_witness :
    alGet (registerLink (registerLink [] "A->B" ⟨"A", "B", 1⟩) "A->B" ⟨"A", "B", 2⟩)
        "A->B" = some ⟨"A", "B", 2⟩ ∧
    alGet (registerLink (registerLink [] "A->B" ⟨"A", "B", 2⟩) "A->B" ⟨"A", "B", 1⟩)
        "A->B" = some ⟨"A", "B", 2⟩ := by
  constructor
  · have h := (C4_edge_dedup_max [] "A->B" ⟨"A", "B", 1⟩ ⟨"A", "B", 2⟩ rfl).1
    rw [h]
    norm_num
  · have h := (C4_edge_dedup_max [] "A->B" ⟨"A", "B", 2⟩ ⟨"A", "B", 1⟩ rfl).1
    rw [h]
    norm_num

/-- C5 counterexample: the extractor computes weight 1/3 for each ONE_OF
alternative, but the edge emitted by graph assembly carries
`Math.round(value * 100) / 100` = 0.33 ≠ 1/3 — the core does round edge
values to 2 decimals. -/
theorem C5_no_rounding_counterexample :
    extractCourseRequirementsWithValues
        (.group .ONE_OF [.course "MATH 1" none none none,
          .course "MATH 2" none none none, .course "MATH 3" none none none]) 1
      = [("MATH 1", 1/3), ("MATH 2", 1/3), ("MATH 3", 1/3)] ∧
    (generateNodesAndLinks c5Courses).2 =
      [⟨"MATH 1", "B 1", round2 (1/3)⟩, ⟨"MATH 2", "B 1", round2 (1/3)⟩,
        ⟨"MATH 3", "B 1", round2 (1/3)⟩] ∧
    round2 (1/3) = 33/100 ∧ ((33 : ℚ)/100) ≠ 1/3 ∧
    Link.mk "MATH 1" "B 1" (1/3) ∉ (generateNodesAndLinks c5Courses).2 := by
  refine ⟨rfl, rfl, by norm_num [round2, jsRound], by norm_num, ?_⟩
  intro hmem
  have he : (generateNodesAndLinks c5Courses).2 =
      [⟨"MATH 1", "B 1", round2 (1/3)⟩, ⟨"MATH 2", "B 1", round2 (1/3)⟩,
        ⟨"MATH 3", "B 1", round2 (1/3)⟩] := rfl
  rw [he] at hmem
  have hval : ¬ ((1/3 : ℚ) = round2 (1/3)) := by norm_num [round2, jsRound]
  simp [Link.mk.injEq, hval] at hmem
  rw [one_div] at hval
  exact hval hmem

/-- C5 (amended): every edge produced by graph assembly carries the extractor
weight rounded to 2 decimals by the core itself (`Math.round(value*100)/100`);
every output edge value is a fixed point of that rounding. -/
theorem C5_rounded_edges (courses : List CourseSaveFile) :
    ∀ l ∈ (generateNodesAndLinks courses).2, round2 l.value = l.value := by
  intro l hl
  unfold generateNodesAndLinks at hl
  simp only at hl
  have hbuilt : RoundedMap ((parsedCoursesOf courses).foldl
      (processCourse (depthLoop (parsedCoursesOf courses) 10
        (initDepths (parsedCoursesOf courses)))) ([], [])).2 := by
    refine foldl_preserve
      (fun (s : List (String × Node) × List (String × Link)) => RoundedMap s.2)
      _ ?_ _ _ ?_
    · intro a b ha; exact processCourse_rounded _ a b ha
    · intro p hp; cases hp
  rcases List.mem_map.mp hl with ⟨p, hp, hpl⟩
  rw [← hpl]
  exact hbuilt p hp

theorem C5_rounded_edges_witness :
    Link.mk "MATH 1" "B 1" (round2 (1/3)) ∈ (generateNodesAndLinks c5Courses).2 ∧
    round2 (Link.mk "MATH 1" "B 1" (round2 (1/3))).value
      = (Link.mk "MATH 1" "B 1" (round2 (1/3))).value := by
  have he : (generateNodesAndLinks c5Courses).2 =
      [⟨"MATH 1", "B 1", round2 (1/3)⟩, ⟨"MATH 2", "B 1", round2 (1/3)⟩,
        ⟨"MATH 3", "B 1", round2 (1/3)⟩] := rfl
  have hm : Link.mk "MATH 1" "B 1" (round2 (1/3)) ∈ (generateNodesAndLinks c5Courses).2 := by
    rw [he]; exact List.mem_cons_self _ _
  exact ⟨hm, C5_rounded_edges c5Courses _ hm⟩

/-- C6: a corequisite between A and B registers edges in both directions with
equal (rounded) value, while a prerequisite registration touches no key other
than its single prerequisite→dependent key; end to end, a lone corequisite
produces exactly the two symmetric edges with equal value. -/
theorem C6_coreq_symmetry :
    (∀ (m : List (String × Link)) (c t : String) (v : ℚ),
      alGet m (c ++ "->" ++ t) = none → alGet m (t ++ "->" ++ c) = none →
      (c ++ "->" ++ t) ≠ (t ++ "->" ++ c) →
      alGet (addCoreqLinks m c t v) (c ++ "->" ++ t) = some ⟨c, t, round2 v⟩ ∧
      alGet (addCoreqLinks m c t v) (t ++ "->" ++ c) = some ⟨t, c, round2 v⟩) ∧
    (∀ (m : List (String × Link)) (p t : String) (v : ℚ) (k : String),
      k ≠ (p ++ "->" ++ t) → alGet (addPrereqLink m p t v) k = alGet m k) ∧
    ((generateNodesAndLinks c6Courses).2
        = [⟨"A 1", "B 1", round2 1⟩, ⟨"B 1", "A 1", round2 1⟩] ∧
      round2 1 = 1) := by
  refine ⟨?_, ?_, rfl, by norm_num [round2, jsRound]⟩
  · intro m c t v h1 h2 hne
    have hne' : (t ++ "->" ++ c) ≠ (c ++ "->" ++ t) := fun hh => hne hh.symm
    constructor
    · simp only [addCoreqLinks]
      rw [registerLink_other _ _ _ _ hne]
      exact registerLink_fresh _ _ _ h1
    · simp only [addCoreqLinks]
      apply registerLink_fresh
      rw [registerLink_other _ _ _ _ hne']
      exact h2
  · intro m p t v k hk
    unfold addPrereqLink
    exact registerLink_other _ _ _ _ hk

theorem C6_coreq_symmetry_witness :
    alGet (addCoreqLinks [] "A" "B" 1) ("A" ++ "->" ++ "B") = some ⟨"A", "B", round2 1⟩ ∧
    alGet (addCoreqLinks [] "A" "B" 1) ("B" ++ "->" ++ "A") = some ⟨"B", "A", round2 1⟩ ∧
    alGet (addPrereqLink [] "A" "B" 1) "B->A" = alGet ([] : List (String × Link)) "B->A" := by
  have h := C6_coreq_symmetry.1 [] "A" "B" 1 rfl rfl (by decide)
  exact ⟨h.1, h.2, C6_coreq_symmetry.2.1 [] "A" "B" 1 "B->A" (by decide)⟩

/-- C7: depth resolution initializes every parsed course to depth 0,
repeatedly recomputes every course's depth from the current table tracking
whether any value grew, stops on a no-change pass or on the fixed ceiling of
10 passes, and when the ceiling is hit it returns the table reached so far. -/
theorem C7_relaxation_loop :
    (∀ (pc : List CourseSaveFile) (c : String),
      c ∈ pc.map CourseSaveFile.course → alGet (initDepths pc) c = some 0) ∧
    (∀ (pc : List CourseSaveFile) (t : List (String × Nat)), depthLoop pc 0 t = t) ∧
    (∀ (pc : List CourseSaveFile) (t : List (String × Nat)) (n : Nat),
      (depthPass pc t).2 = false → depthLoop pc (n + 1) t = (depthPass pc t).1) ∧
    (∀ (pc : List CourseSaveFile) (t : List (String × Nat)) (n : Nat),
      (depthPass pc t).2 = true →
      depthLoop pc (n + 1) t = depthLoop pc n (depthPass pc t).1) ∧
    (∀ courses : List CourseSaveFile,
      courseDepthsOf courses
        = depthLoop (parsedCoursesOf courses) 10 (initDepths (parsedCoursesOf courses))) := by
  refine ⟨?_, fun pc t => rfl, ?_, ?_, fun courses => rfl⟩
  · intro pc c h
    exact initDepths_aux pc [] c (Or.inr h)
  · intro pc t n h
    simp [depthLoop, h]
  · intro pc t n h
    simp [depthLoop, h]

theorem C7_relaxation_loop_witness :
    alGet (initDepths [⟨"X 1", "parsed", some ⟨"X", "1", none, none, none, none⟩⟩])
        "X 1" = some 0 ∧
    depthLoop [⟨"X 1", "parsed", some ⟨"X", "1", none, none, none, none⟩⟩] 0
        [("a", 3)] = [("a", 3)] ∧
    depthLoop [⟨"X 1", "parsed", some ⟨"X", "1", none, none, none, none⟩⟩] 1 [("X 1", 0)]
      = (depthPass [⟨"X 1", "parsed", some ⟨"X", "1", none, none, none, none⟩⟩]
          [("X 1", 0)]).1 ∧
    depthLoop [⟨"B 1", "parsed",
        some ⟨"B", "1", some (.course "A 1" none none none), none, none, none⟩⟩] 2
        [("B 1", 0)]
      = depthLoop [⟨"B 1", "parsed",
          some ⟨"B", "1", some (.course "A 1" none none none), none, none, none⟩⟩] 1
          (depthPass [⟨"B 1", "parsed",
            some ⟨"B", "1", some (.course "A 1" none none none), none, none, none⟩⟩]
            [("B 1", 0)]).1 := by
  refine ⟨?_, ?_, ?_, ?_⟩
  · exact C7_relaxation_loop.1 _ "X 1" (by simp)
  · exact C7_relaxation_loop.2.1 _ _
  · exact C7_relaxation_loop.2.2.1 _ _ 0 rfl
  · exact C7_relaxation_loop.2.2.2.1 _ _ 1 rfl

/-- C8: the validator rejects a `course` requirement whose `minGrade` is -1,
101 or a non-numeric string, and accepts `minGrade` 0 and 100, the other
fields of the candidate being valid. -/
theorem C8_minGrade_bounds :
    validateRequirements (.vobj [("type", .vstr "course"),
        ("course", .vstr "CPSC 110"), ("minGrade", .vnum (-1))])
      = ⟨false, some "minGrade must be a number between 0 and 100"⟩ ∧
    validateRequirements (.vobj [("type", .vstr "course"),
        ("course", .vstr "CPSC 110"), ("minGrade", .vnum 101)])
      = ⟨false, some "minGrade must be a number between 0 and 100"⟩ ∧
    validateRequirements (.vobj [("type", .vstr "course"),
        ("course", .vstr "CPSC 110"), ("minGrade", .vstr "sixty")])
      = ⟨false, some "minGrade must be a number between 0 and 100"⟩ ∧
    validateRequirements (.vobj [("type", .vstr "course"),
        ("course", .vstr "CPSC 110"), ("minGrade", .vnum 0)]) = ⟨true, none⟩ ∧
    validateRequirements (.vobj [("type", .vstr "course"),
        ("course", .vstr "CPSC 110"), ("minGrade", .vnum 100)]) = ⟨true, none⟩ := by
  refine ⟨?_, ?_, ?_, ?_, ?_⟩ <;>
    simp [validateRequirements, validateRequirementCourse, jsGet, getField,
      isTruthyObject, nonEmptyStringField, optionalGradeOk, optionalBoolOk] <;>
    norm_num

theorem validateRequirementGroup_eq_children (req : JSValue)
    (hlogic : groupLogicOk (jsGet req "logic") = true)
    (xs : List JSValue) (hchildren : jsGet req "children" = .varr xs) :
    validateRequirementGroup req =
      if xs.length = 0 then ⟨false, some "Group must have at least one child"⟩
      else validateChildren xs 0 := by
  rw [validateRequirementGroup, if_neg (by simp [hlogic])]
  split
  next ys heq =>
    rw [hchildren] at heq
    injection heq with hys
    subst hys
    rfl
  next heq =>
    rw [hchildren] at heq
    exact absurd rfl (heq xs)

/-- C9: a `group` whose children array is empty is rejected with the
"at least one child" reason, and a group with a failing child fails fast at
the first failing child, the error reporting that child's index and reason. -/
theorem C9_group_children_validation :
    (∀ req : JSValue, groupLogicOk (jsGet req "logic") = true →
      jsGet req "children" = .varr [] →
      validateRequirementGroup req
        = ⟨false, some "Group must have at least one child"⟩) ∧
    (∀ (req : JSValue) (xs : List JSValue) (c : JSValue) (ys : List JSValue),
      groupLogicOk (jsGet req "logic") = true →
      jsGet req "children" = .varr (xs ++ c :: ys) →
      (∀ x ∈ xs, (validateRequirements x).isValid = true) →
      (validateRequirements c).isValid = false →
      validateRequirementGroup req = ⟨false, some ("Invalid child at index "
        ++ toString xs.length ++ ": " ++ errStr (validateRequirements c))⟩) := by
  constructor
  · intro req hlogic hchildren
    rw [validateRequirementGroup_eq_children req hlogic [] hchildren]
    rfl
  · intro req xs c ys hlogic hchildren hxs hc
    rw [validateRequirementGroup_eq_children req hlogic _ hchildren,
      if_neg (by simp), validateChildren_fail_fast xs c ys hxs hc 0, Nat.zero_add]

theorem C9_group_children_validation_witness :
    validateRequirementGroup (.vobj [("type", .vstr "group"),
        ("logic", .vstr "ALL_OF"), ("children", .varr [])])
      = ⟨false, some "Group must have at least one child"⟩ ∧
    validateRequirementGroup (.vobj [("type", .vstr "group"),
        ("logic", .vstr "ONE_OF"),
        ("children", .varr [.vobj [("type", .vstr "course"),
          ("course", .vstr "MATH 100")], .vnull])])
      = ⟨false, some ("Invalid child at index "
          ++ toString (List.length [JSValue.vobj [("type", .vstr "course"),
            ("course", .vstr "MATH 100")]]) ++ ": "
          ++ errStr (validateRequirements .vnull))⟩ := by
  constructor
  · exact C9_group_children_validation.1 _ rfl rfl
  · have hxs : ∀ x ∈ [JSValue.vobj [("type", JSValue.vstr "course"),
        ("course", JSValue.vstr "MATH 100")]],
        (validateRequirements x).isValid = true := by
      intro x hx
      simp only [List.mem_singleton] at hx
      subst hx
      simp [validateRequirements, validateRequirementCourse, jsGet, getField,
        isTruthyObject, nonEmptyStringField, optionalGradeOk, optionalBoolOk]
    have hc : (validateRequirements JSValue.vnull).isValid = false := by
      simp [validateRequirements, isTruthyObject]
    exact C9_group_children_validation.2 _ _ _ [] rfl rfl hxs hc

/-- C10: top-level validation is total — for every input value whatsoever,
`validateParsedRequirements` returns a result with `isValid` true or false,
and a `false` result always carries an error message. -/
theorem C10_validate_total (data : JSValue) :
    (validateParsedRequirements data).isValid = true ∨
    ((validateParsedRequirements data).isValid = false ∧
      (validateParsedRequirements data).error.isSome = true) := by
  have h : VOk (validateParsedRequirements data) := by
    unfold validateParsedRequirements
    by_cases h1 : isTruthyObject data = true
    · by_cases h2 : nonEmptyStringField data "department" = true
      · by_cases h3 : nonEmptyStringField data "code" = true
        · rw [if_neg (by simp [h1]), if_neg (by simp [h2]), if_neg (by simp [h3])]
          apply checkOptionalReq_ok
          apply checkOptionalReq_ok
          apply checkOptionalReq_ok
          apply checkOptionalReq_ok
          left; rfl
        · rw [if_neg (by simp [h1]), if_neg (by simp [h2]), if_pos (by simp [h3])]
          right; simp [VOk]
      · rw [if_neg (by simp [h1]), if_pos (by simp [h2])]
        right; simp [VOk]
    · rw [if_pos (by simp [h1])]
      right; simp [VOk]
  exact h
